import Mathlib

set_option maxHeartbeats 2000000
set_option maxRecDepth 4000

/- Verification of the incremental synchronization and cache engine of
gitlab-hud (`src/gitlab_hud/hud.py`), as a shallow embedding in Lean.

Modelling conventions:

* `maya.MayaDT` wraps a POSIX epoch.  Every timestamp handled by the
  program is either `maya.MayaDT(0)` (the watermark default) or a value
  parsed from a GitLab ISO-8601 string, hence at or after the epoch.
  Timestamps are modelled as natural numbers counting whole seconds
  since 1970-01-01T00:00:00Z; the ordering, `max`, and the serialization
  structure of the code are preserved at this granularity.

* GitLab API handles (`project`, raw merge-request objects) are the
  external data source.  A remote feed is modelled as the list of
  snapshots that the paginated listing of `fetch_merge_requests` would
  yield, in server order.  The `from_gitlab` constructors, which only
  repackage raw API payloads into the attrs classes, are absorbed into
  that modelling: the feed directly contains `MergeRequest` values.

* The two `diskcache.Index` stores are modelled as an association list
  from merge-request id to snapshot (`MR_CACHE`) plus a single scalar
  watermark (`CONTROL_CACHE`, key `updated_at`).

* The viewing user is read from the process-global `g_config` via
  `my_username()`; it is passed to `is_important` as an explicit
  argument here.
-/

abbrev MayaDT := Nat

structure User where
  name : String
  username : String
  id : Int
deriving DecidableEq

structure Pipeline where
  id : Int
  status : String
  updated_at : MayaDT
  link : String
deriving DecidableEq

structure Note where
  system : Bool
  author : User
  resolvable : Bool
  resolved : Option Bool
  resolved_by : Option User
  updated_at : MayaDT
  body : String
  id : Int
  type : Option String
deriving DecidableEq

structure Approvals where
  approved : Bool
  approved_by : List User
  updated_at : MayaDT
  id : Int
deriving DecidableEq

structure Update where
  author : User
  content : String
  updated_at : MayaDT
deriving DecidableEq

structure MergeRequest where
  title : String
  author : User
  ref : String
  link : String
  notes : List Note
  updated_at : MayaDT
  merged_at : Option MayaDT
  closed_at : Option MayaDT
  approvals : Approvals
  id : Int
  is_draft : Bool
  pipelines : List Pipeline
  has_conflicts : Bool
deriving DecidableEq

/- The local predicate `_is_relevant` from `MergeRequest.get_last_update`:
a note is relevant when it is resolvable or system-generated. -/
def is_relevant (note : Note) : Bool :=
  note.resolvable || note.system

/- Python `max(xs, key=k)`: scans left to right and replaces the current
best only on a strictly greater key, so it returns the first element
whose key is maximal.  Raises on an empty list, modelled as `none`
(`get_last_update` only calls it on a list checked to be nonempty). -/
def pyMaxBy (key : Note → MayaDT) : List Note → Option Note
  | [] => none
  | x :: xs => some (xs.foldl (fun best y => if key best < key y then y else best) x)

/- The line-boundary characters of Python `str.splitlines`. -/
def isLineBoundary (c : Char) : Bool :=
  c ∈ ['\n', '\r', '\x0B', '\x0C', '\x1C', '\x1D', '\x1E', '\x85', ' ', ' ']

/- Python `s.splitlines()[0]`: the first line of `s`.  When `s` is empty,
`"".splitlines()` is `[]` and the index raises `IndexError`, modelled as
`none`; otherwise the first line is the prefix of `s` before the first
line boundary. -/
def firstSplitLine (s : String) : Option String :=
  if s.isEmpty then none
  else some (s.takeWhile (fun c => !isLineBoundary c))

/- `MergeRequest.get_last_update` (hud.py lines 218-240).  The source
returns an `Update`; the `none` value models the `IndexError` raised by
`content.splitlines()[0]` when the selected system note has an empty
body. -/
def MergeRequest.get_last_update (mr : MergeRequest) : Option Update :=
  match pyMaxBy (fun n => n.updated_at) (mr.notes.filter is_relevant) with
  | none => some { author := mr.author, content := "MR Created", updated_at := mr.updated_at }
  | some last_note =>
    if last_note.system then
      (firstSplitLine last_note.body).map
        (fun content =>
          { author := last_note.author, content := content, updated_at := last_note.updated_at })
    else
      some { author := last_note.author, content := last_note.body,
             updated_at := last_note.updated_at }

/- `is_important` (hud.py lines 246-253).  A non-`None` MayaDT is always
truthy in Python (the class defines no `__bool__`/`__len__`), so the
first guard is a presence test on `merged_at`/`closed_at`.  The viewer
username, read from the global config in the source, is an explicit
argument; the result is `none` exactly when `get_last_update` raises. -/
def is_important (my_username : String) (merge_request : MergeRequest) : Option Bool :=
  if merge_request.merged_at.isSome || merge_request.closed_at.isSome then
    some false
  else
    merge_request.get_last_update.map (fun u => u.author.username != my_username)

/- Facts about Python `max`. -/

theorem pyMaxBy_foldl_mem (key : Note → MayaDT) (xs : List Note) (a : Note) :
    xs.foldl (fun best y => if key best < key y then y else best) a ∈ a :: xs := by
  induction xs generalizing a with
  | nil => simp
  | cons x xs ih =>
    simp only [List.foldl_cons]
    rcases List.mem_cons.mp (ih (if key a < key x then x else a)) with h | h
    · rw [h]
      by_cases hc : key a < key x <;> simp [hc]
    · simp [List.mem_cons, h]

theorem pyMaxBy_foldl_le_start (key : Note → MayaDT) (xs : List Note) (a : Note) :
    key a ≤ key (xs.foldl (fun best y => if key best < key y then y else best) a) := by
  induction xs generalizing a with
  | nil => simp
  | cons x xs ih =>
    simp only [List.foldl_cons]
    refine le_trans ?_ (ih (if key a < key x then x else a))
    by_cases hc : key a < key x <;> simp [hc]
    exact le_of_lt hc

theorem pyMaxBy_foldl_le (key : Note → MayaDT) (xs : List Note) (a : Note) :
    ∀ y ∈ a :: xs, key y ≤ key (xs.foldl (fun best y => if key best < key y then y else best) a) := by
  induction xs generalizing a with
  | nil => simp
  | cons x xs ih =>
    intro y hy
    simp only [List.foldl_cons]
    rcases List.mem_cons.mp hy with rfl | hy'
    · refine le_trans ?_ (pyMaxBy_foldl_le_start key xs (if key y < key x then x else y))
      by_cases hc : key y < key x <;> simp [hc]
      exact le_of_lt hc
    · rcases List.mem_cons.mp hy' with rfl | hy''
      · refine le_trans ?_ (pyMaxBy_foldl_le_start key xs (if key a < key y then y else a))
        by_cases hc : key a < key y <;> simp [hc]
        exact le_of_not_lt hc
      · exact ih (if key a < key x then x else a) y (List.mem_cons.mpr (Or.inr hy''))

theorem pyMaxBy_eq_some_mem {key : Note → MayaDT} {l : List Note} {x : Note}
    (h : pyMaxBy key l = some x) : x ∈ l := by
  cases l with
  | nil => simp [pyMaxBy] at h
  | cons a xs =>
    simp only [pyMaxBy, Option.some.injEq] at h
    exact h ▸ pyMaxBy_foldl_mem key xs a

theorem pyMaxBy_eq_some_le {key : Note → MayaDT} {l : List Note} {x : Note}
    (h : pyMaxBy key l = some x) : ∀ y ∈ l, key y ≤ key x := by
  cases l with
  | nil => simp [pyMaxBy] at h
  | cons a xs =>
    simp only [pyMaxBy, Option.some.injEq] at h
    exact fun y hy => h ▸ pyMaxBy_foldl_le key xs a y hy

theorem pyMaxBy_eq_none_iff {key : Note → MayaDT} {l : List Note} :
    pyMaxBy key l = none ↔ l = [] := by
  cases l <;> simp [pyMaxBy]

/- Concrete fixtures used by counterexamples and witnesses. -/

def uAlice : User := { name := "Alice", username := "alice", id := 1 }

def uBob : User := { name := "Bob", username := "bob", id := 2 }

def approvals0 : Approvals := { approved := false, approved_by := [], updated_at := 0, id := 0 }

def mkMR (i : Nat) : MergeRequest :=
  { title := "", author := uAlice, ref := "", link := "", notes := [],
    updated_at := i, merged_at := none, closed_at := none, approvals := approvals0,
    id := (i : Int), is_draft := false, pipelines := [], has_conflicts := false }

def noteSys : Note :=
  { system := true, author := uBob, resolvable := false, resolved := none,
    resolved_by := none, updated_at := 5, body := "marked as draft\nmore detail",
    id := 10, type := none }

def noteRes : Note :=
  { system := false, author := uBob, resolvable := true, resolved := some false,
    resolved_by := none, updated_at := 7, body := "please fix\nthis",
    id := 11, type := some ("DiffNote") }

def noteSysEmpty : Note :=
  { system := true, author := uBob, resolvable := false, resolved := none,
    resolved_by := none, updated_at := 9, body := "", id := 12, type := none }

def mrPlain : MergeRequest := mkMR 3

def mrNoted : MergeRequest := { mkMR 4 with notes := [noteSys, noteRes] }

def mrMerged : MergeRequest := { mkMR 6 with merged_at := some 5, notes := [noteRes] }

def mrSysOnly : MergeRequest := { mkMR 2 with notes := [noteSys] }

def mrEmptyBody : MergeRequest := { mkMR 8 with notes := [noteSys, noteSysEmpty] }

def updNoted : Update := { author := uBob, content := "please fix\nthis", updated_at := 7 }

/-- C6: `get_last_update` considers only system-generated or resolvable
comments.  With no relevant comment it returns the synthetic record
(author = request author, content = "MR Created", updated_at =
request.updated_at); otherwise, whenever it returns an update, that
update is built from a relevant comment with maximal `updated_at`, its
content being the first line of the body for a system comment and the
full body otherwise, and its author the comment's author. -/
theorem C6_last_update (mr : MergeRequest) :
    (mr.notes.filter is_relevant = [] →
      mr.get_last_update =
        some { author := mr.author, content := "MR Created", updated_at := mr.updated_at })
    ∧ (∀ upd : Update, mr.notes.filter is_relevant ≠ [] → mr.get_last_update = some upd →
        ∃ n ∈ mr.notes.filter is_relevant,
          (∀ m ∈ mr.notes.filter is_relevant, m.updated_at ≤ n.updated_at) ∧
          upd.author = n.author ∧ upd.updated_at = n.updated_at ∧
          ((n.system = true ∧ firstSplitLine n.body = some upd.content) ∨
           (n.system = false ∧ upd.content = n.body))) := by
  constructor
  · intro h
    simp [MergeRequest.get_last_update, h, pyMaxBy]
  · intro upd hne heq
    rcases hsel : pyMaxBy (fun n => n.updated_at) (mr.notes.filter is_relevant) with _ | n
    · exact absurd (pyMaxBy_eq_none_iff.mp hsel) hne
    · simp only [MergeRequest.get_last_update, hsel] at heq
      refine ⟨n, pyMaxBy_eq_some_mem hsel,
        fun m hm => pyMaxBy_eq_some_le hsel m hm, ?_⟩
      cases hsys : n.system with
      | false =>
        rw [hsys] at heq
        simp only [Bool.false_eq_true, if_false, Option.some.injEq] at heq
        subst heq
        exact ⟨rfl, rfl, Or.inr ⟨rfl, rfl⟩⟩
      | true =>
        rw [hsys] at heq
        simp only [if_true, Option.map_eq_some'] at heq
        rcases heq with ⟨c, hc, hupd⟩
        subst hupd
        exact ⟨rfl, rfl, Or.inl ⟨rfl, hc⟩⟩

/-- C6 witness: the synthetic fallback on a request with no relevant
comments, and the maximal-comment case on a request whose latest
relevant comment is a resolvable (non-system) note. -/
theorem C6_last_update_witness :
    (mrPlain.notes.filter is_relevant = [] ∧
      mrPlain.get_last_update =
        some { author := mrPlain.author, content := "MR Created", updated_at := mrPlain.updated_at })
    ∧ (mrNoted.notes.filter is_relevant ≠ [] ∧ mrNoted.get_last_update = some updNoted ∧
        ∃ n ∈ mrNoted.notes.filter is_relevant,
          (∀ m ∈ mrNoted.notes.filter is_relevant, m.updated_at ≤ n.updated_at) ∧
          updNoted.author = n.author ∧ updNoted.updated_at = n.updated_at ∧
          ((n.system = true ∧ firstSplitLine n.body = some updNoted.content) ∨
           (n.system = false ∧ updNoted.content = n.body))) :=
  ⟨⟨by decide, (C6_last_update mrPlain).1 (by decide)⟩,
   ⟨by decide, by decide, (C6_last_update mrNoted).2 updNoted (by decide) (by decide)⟩⟩

/-- C5: `is_important` is `some true` iff `merged_at` is absent,
`closed_at` is absent and the author of the derived last relevant
update is not the viewing user; a request with `merged_at` set is never
important, regardless of its comments (the guard short-circuits before
`get_last_update` is even evaluated). -/
theorem C5_importance (u : String) (mr : MergeRequest) :
    (mr.merged_at.isSome = true → is_important u mr = some false)
    ∧ (∀ upd : Update, mr.get_last_update = some upd →
        (is_important u mr = some true ↔
          mr.merged_at = none ∧ mr.closed_at = none ∧ upd.author.username ≠ u)) := by
  constructor
  · intro h
    simp [is_important, h]
  · intro upd heq
    rcases hmm : mr.merged_at with _ | t
    · rcases hcc : mr.closed_at with _ | t'
      · simp [is_important, hmm, hcc, heq, bne_iff_ne]
      · simp [is_important, hmm, hcc]
    · simp [is_important, hmm]

/-- C5 witness: a merged request (with a comment authored by another
user) is not important, and on an open request the importance test
reduces to the last-update author differing from the viewer. -/
theorem C5_importance_witness :
    (mrMerged.merged_at.isSome = true ∧ is_important uAlice.username mrMerged = some false)
    ∧ (mrNoted.get_last_update = some updNoted ∧
        (is_important uAlice.username mrNoted = some true ↔
          mrNoted.merged_at = none ∧ mrNoted.closed_at = none ∧
            updNoted.author.username ≠ uAlice.username)) :=
  ⟨⟨by decide, (C5_importance uAlice.username mrMerged).1 (by decide)⟩,
   ⟨by decide, (C5_importance uAlice.username mrNoted).2 updNoted (by decide)⟩⟩

/-- C10: `get_last_update` is partial.  When the selected maximal
relevant comment is system-generated, the call returns normally iff the
comment body is nonempty; an empty body makes `splitlines()[0]` raise
`IndexError`, modelled as `none`. -/
theorem C10_first_line_indexing (mr : MergeRequest) (n : Note)
    (hsel : pyMaxBy (fun k => k.updated_at) (mr.notes.filter is_relevant) = some n)
    (hsys : n.system = true) :
    (n.body ≠ "" → (mr.get_last_update).isSome = true)
    ∧ (n.body = "" → mr.get_last_update = none) := by
  constructor
  · intro hb
    simp [MergeRequest.get_last_update, hsel, hsys, firstSplitLine,
      String.isEmpty_iff, hb]
  · intro hb
    have h0 : firstSplitLine (String.mk []) = none := rfl
    simp [MergeRequest.get_last_update, hsel, hsys, hb, h0]

/-- C10 witness: a request whose maximal relevant comment is a system
note with nonempty body succeeds, while one whose maximal relevant
comment is a system note with empty body fails (returns no update). -/
theorem C10_first_line_indexing_witness :
    (pyMaxBy (fun k => k.updated_at) (mrSysOnly.notes.filter is_relevant) = some noteSys ∧
      noteSys.system = true ∧ noteSys.body ≠ "" ∧ (mrSysOnly.get_last_update).isSome = true)
    ∧ (pyMaxBy (fun k => k.updated_at) (mrEmptyBody.notes.filter is_relevant) = some noteSysEmpty ∧
        noteSysEmpty.system = true ∧ noteSysEmpty.body = "" ∧
        mrEmptyBody.get_last_update = none) :=
  ⟨⟨by decide, by decide, by decide,
    (C10_first_line_indexing mrSysOnly noteSys (by decide) (by decide)).1 (by decide)⟩,
   ⟨by decide, by decide, by decide,
    (C10_first_line_indexing mrEmptyBody noteSysEmpty (by decide) (by decide)).2 (by decide)⟩⟩

/- The incremental sync engine (hud.py lines 256-288).

`fetch_merge_requests` iterates `count(start=1)` over pages of ten
merge requests ordered by `updated_at`; it has no stop condition, so
once the listing is exhausted it keeps requesting further (empty) pages
forever and never yields another item nor terminates.  A feed is the
finite list of records the listing actually contains; pulling an item
past its end therefore never returns.

`load_merge_requests` reads the watermark (`CONTROL_CACHE` key
`updated_at`, defaulting to `maya.MayaDT(0)` via `setdefault`), drives
`islice(fetch_merge_requests(project), 50)`, breaking at the first
record at or below the watermark, and for each fresh record first
writes the watermark (`max` of its current value and the record's
`updated_at`), then persists the record under its id, then yields it.
Afterwards it yields every stored snapshot with `updated_at` at or
below the watermark read at the start.  Snapshots pass through the
cattr/JSON converter on the way in and out of the store; that converter
is modelled (and proved lossless) separately below, so the store is
modelled as holding the snapshots themselves. -/

structure SyncState where
  store : List (Int × MergeRequest)
  watermark : MayaDT
deriving DecidableEq

def initialState : SyncState := { store := [], watermark := 0 }

def storeKeys (s : List (Int × MergeRequest)) : List Int := s.map Prod.fst

/- Overwriting map update, `merge_requests[id] = ...` on the diskcache
Index.  Iteration order of the Index is unspecified by the spec; the
model keeps the fresh entry first. -/
def storePut (s : List (Int × MergeRequest)) (k : Int) (mr : MergeRequest) :
    List (Int × MergeRequest) :=
  (k, mr) :: s.filter (fun p => p.1 != k)

/- The persistent effect of one loop iteration, at the granularity of
the two durable writes the body performs, in source order: first the
watermark write (line 278), then the record-store write (line 279).  A
crash between writes leaves exactly a prefix of the emitted operations
applied. -/
inductive SyncOp where
  | advance (t : MayaDT)
  | put (k : Int) (mr : MergeRequest)
deriving DecidableEq

def applySyncOp (st : SyncState) : SyncOp → SyncState
  | .advance t => { store := st.store, watermark := max st.watermark t }
  | .put k mr => { store := storePut st.store k mr, watermark := st.watermark }

def applySyncOps (st : SyncState) (ops : List SyncOp) : SyncState :=
  ops.foldl applySyncOp st

/- The sequence of durable writes the fresh-fetch loop performs for a
given feed, watermark cutoff `W` and remaining `islice` budget. -/
def freshOps (W : MayaDT) (cap : Nat) (feed : List MergeRequest) : List SyncOp :=
  match cap, feed with
  | 0, _ => []
  | _ + 1, [] => []
  | cap' + 1, mr :: rest =>
    if mr.updated_at ≤ W then []
    else .advance mr.updated_at :: .put mr.id mr :: freshOps W cap' rest

structure FreshResult where
  state : SyncState
  fetched : List MergeRequest
  terminated : Bool
deriving DecidableEq

/- The fresh-fetch loop of `load_merge_requests` (lines 274-282).
`terminated = false` marks the run that pulls past the end of the feed:
`fetch_merge_requests` never raises `StopIteration`, so that pull hangs
forever (the records processed before the hang are still persisted and
yielded, recorded in `fetched`).  `cap` is the remaining `islice`
budget; when it reaches zero the slice ends without touching the 
source iterator. -/
def runFresh (W : MayaDT) (cap : Nat) (feed : List MergeRequest) (st : SyncState) :
    FreshResult :=
  match cap, feed with
  | 0, _ => { state := st, fetched := [], terminated := true }
  | _ + 1, [] => { state := st, fetched := [], terminated := false }
  | cap' + 1, mr :: rest =>
    if mr.updated_at ≤ W then { state := st, fetched := [], terminated := true }
    else
      let st' : SyncState :=
        { store := storePut st.store mr.id mr,
          watermark := max st.watermark mr.updated_at }
      let r := runFresh W cap' rest st'
      { state := r.state, fetched := mr :: r.fetched, terminated := r.terminated }

structure RunResult where
  state : SyncState
  fetched : List MergeRequest
  cached : List MergeRequest
  terminated : Bool
deriving DecidableEq

/- `load_merge_requests` (lines 268-288): the fresh-fetch loop followed
by the cache sweep that yields every stored snapshot at or below the
watermark read at the start of the run.  The run yields `fetched ++
cached` in that order; `cached` is only reached when the fresh loop
terminated. -/
def load_merge_requests (feed : List MergeRequest) (st : SyncState) : RunResult :=
  let updated_at := st.watermark
  let r := runFresh updated_at 50 feed st
  { state := r.state,
    fetched := r.fetched,
    cached := (r.state.store.map Prod.snd).filter (fun mr => decide (mr.updated_at ≤ updated_at)),
    terminated := r.terminated }

def feed3 : List MergeRequest := [mkMR 3, mkMR 2, mkMR 1]

def feed51 : List MergeRequest := (List.range 51).map (fun i => mkMR (51 - i))

/-- C7 (code-bug evidence): on a feed of three records, all newer than
the watermark — a feed the fetcher exhausts — the sync fetch loop pulls
a fourth item that the pagination loop of `fetch_merge_requests` never
produces, so the invocation never terminates (`terminated = false`),
contrary to the claim that every single invocation terminates; the
three records are still fetched before the hang. -/
theorem C7_fetch_nonterminating :
    (load_merge_requests feed3 initialState).terminated = false
    ∧ (load_merge_requests feed3 initialState).fetched = [mkMR 3, mkMR 2, mkMR 1] := by
  decide

/-- C2 (code-bug evidence): for a single fresh record the loop emits the
watermark write *before* the record-store write.  Crashing after the
first write alone leaves watermark 1 with an empty store; the next run
over the unchanged feed then fetches nothing and the snapshot is never
persisted — a fetched-but-unpersisted snapshot is skipped, contrary to
the claim. -/
theorem C2_watermark_write_order :
    freshOps initialState.watermark 50 [mkMR 1]
      = [SyncOp.advance 1, SyncOp.put (mkMR 1).id (mkMR 1)]
    ∧ (applySyncOps initialState ((freshOps initialState.watermark 50 [mkMR 1]).take 1)).store = []
    ∧ (applySyncOps initialState
        ((freshOps initialState.watermark 50 [mkMR 1]).take 1)).watermark = 1
    ∧ (load_merge_requests [mkMR 1]
        (applySyncOps initialState ((freshOps initialState.watermark 50 [mkMR 1]).take 1))).fetched = []
    ∧ (load_merge_requests [mkMR 1]
        (applySyncOps initialState
          ((freshOps initialState.watermark 50 [mkMR 1]).take 1))).state.store = [] := by
  decide

/- Watermark facts. -/

theorem applySyncOp_watermark_le (st : SyncState) (op : SyncOp) :
    st.watermark ≤ (applySyncOp st op).watermark := by
  cases op with
  | advance t => exact le_max_left _ _
  | put k mr => exact le_refl _

theorem applySyncOps_watermark_le (ops : List SyncOp) :
    ∀ st : SyncState, st.watermark ≤ (applySyncOps st ops).watermark := by
  induction ops with
  | nil => intro st; exact le_refl _
  | cons op ops ih =>
    intro st
    exact le_trans (applySyncOp_watermark_le st op) (ih (applySyncOp st op))

theorem runFresh_watermark_le (W : MayaDT) :
    ∀ (cap : Nat) (feed : List MergeRequest) (st : SyncState),
      st.watermark ≤ (runFresh W cap feed st).state.watermark := by
  intro cap
  induction cap with
  | zero => intro feed st; exact le_refl _
  | succ cap ih =>
    intro feed st
    cases feed with
    | nil => exact le_refl _
    | cons mr rest =>
      by_cases h : mr.updated_at ≤ W
      · simp [runFresh, h]
      · simp only [runFresh, h, if_false]
        exact le_trans (le_max_left _ _)
          (ih rest { store := storePut st.store mr.id mr,
                     watermark := max st.watermark mr.updated_at })

/-- C4: every durable watermark write stores `max(current, observed)`,
so the watermark is non-decreasing along the write trace of a run,
across a whole sync run, and across any sequence of sync runs; it
defaults to the zero epoch when never set. -/
theorem C4_watermark_monotone :
    initialState.watermark = 0
    ∧ (∀ (st : SyncState) (t : MayaDT),
        (applySyncOp st (SyncOp.advance t)).watermark = max st.watermark t)
    ∧ (∀ (st : SyncState) (ops : List SyncOp) (k : Nat),
        (applySyncOps st (ops.take k)).watermark ≤ (applySyncOps st (ops.take (k + 1))).watermark)
    ∧ (∀ (feed : List MergeRequest) (st : SyncState),
        st.watermark ≤ (load_merge_requests feed st).state.watermark)
    ∧ (∀ (feeds : List (List MergeRequest)) (st : SyncState),
        st.watermark ≤ (feeds.foldl (fun s f => (load_merge_requests f s).state) st).watermark) := by
  refine ⟨rfl, fun st t => rfl, ?_, ?_, ?_⟩
  · intro st ops k
    rw [List.take_succ]
    cases h : ops[k]? with
    | none => simp [applySyncOps, h]
    | some op =>
      simp only [applySyncOps, h, Option.toList_some, List.foldl_append, List.foldl_cons,
        List.foldl_nil]
      exact applySyncOp_watermark_le _ op
  · intro feed st
    exact runFresh_watermark_le st.watermark 50 feed st
  · intro feeds
    induction feeds with
    | nil => intro st; exact le_refl _
    | cons f fs ih =>
      intro st
      exact le_trans (runFresh_watermark_le st.watermark 50 f st) (ih _)

/- Record-store facts. -/

theorem mem_storePut {s : List (Int × MergeRequest)} {k : Int} {mr : MergeRequest}
    {p : Int × MergeRequest} :
    p ∈ storePut s k mr ↔ p = (k, mr) ∨ (p ∈ s ∧ p.1 ≠ k) := by
  simp [storePut, List.mem_filter, bne_iff_ne]

theorem storeKeys_storePut (s : List (Int × MergeRequest)) (k : Int) (mr : MergeRequest) :
    storeKeys (storePut s k mr) = k :: (storeKeys s).filter (fun i => i != k) := by
  simp only [storeKeys, storePut, List.map_cons, List.cons.injEq, true_and]
  induction s with
  | nil => rfl
  | cons q s ih =>
    by_cases h : q.1 = k
    · simp [List.filter_cons, h, ih]
    · simp [List.filter_cons, h, ih]

theorem nodup_storeKeys_storePut {s : List (Int × MergeRequest)} {k : Int} {mr : MergeRequest}
    (h : (storeKeys s).Nodup) : (storeKeys (storePut s k mr)).Nodup := by
  rw [storeKeys_storePut]
  refine List.Nodup.cons ?_ (List.Nodup.filter _ h)
  intro hk
  have := List.mem_filter.mp hk
  simp at this

theorem keyid_storePut {s : List (Int × MergeRequest)} {mr : MergeRequest}
    (h : ∀ p ∈ s, p.1 = p.2.id) : ∀ p ∈ storePut s mr.id mr, p.1 = p.2.id := by
  intro p hp
  rcases mem_storePut.mp hp with rfl | ⟨hps, _⟩
  · rfl
  · exact h p hps

/- The cumulative effect of persisting a list of snapshots, each under
its own id, when those ids are pairwise distinct. -/
theorem mem_foldl_storePut :
    ∀ (L : List MergeRequest), (L.map MergeRequest.id).Nodup →
      ∀ (s : List (Int × MergeRequest)) (p : Int × MergeRequest),
        (p ∈ L.foldl (fun acc mr => storePut acc mr.id mr) s ↔
          (p.2 ∈ L ∧ p.1 = p.2.id) ∨ (p ∈ s ∧ p.1 ∉ L.map MergeRequest.id)) := by
  intro L
  induction L with
  | nil => intro _ s p; simp
  | cons mr L ih =>
    intro hnd s p
    rw [List.map_cons] at hnd
    have hmr : mr.id ∉ L.map MergeRequest.id := (List.nodup_cons.mp hnd).1
    have hndL : (L.map MergeRequest.id).Nodup := (List.nodup_cons.mp hnd).2
    simp only [List.foldl_cons]
    rw [ih hndL]
    constructor
    · rintro (⟨h2, h1⟩ | ⟨hps, hnk⟩)
      · exact Or.inl ⟨List.mem_cons.mpr (Or.inr h2), h1⟩
      · rcases mem_storePut.mp hps with rfl | ⟨hs, hne⟩
        · exact Or.inl ⟨List.mem_cons.mpr (Or.inl rfl), rfl⟩
        · refine Or.inr ⟨hs, ?_⟩
          simp only [List.map_cons, List.mem_cons]
          rintro (h | h)
          · exact hne h
          · exact hnk h
    · rintro (⟨h2, h1⟩ | ⟨hps, hnk⟩)
      · rcases List.mem_cons.mp h2 with rfl | h2'
        · refine Or.inr ⟨mem_storePut.mpr (Or.inl ?_), h1 ▸ hmr⟩
          exact Prod.ext h1 rfl
        · exact Or.inl ⟨h2', h1⟩
      · simp only [List.map_cons, List.mem_cons, not_or] at hnk
        exact Or.inr ⟨mem_storePut.mpr (Or.inr ⟨hps, hnk.1⟩), hnk.2⟩

theorem nodup_storeKeys_foldl (L : List MergeRequest) :
    ∀ s : List (Int × MergeRequest), (storeKeys s).Nodup →
      (storeKeys (L.foldl (fun acc mr => storePut acc mr.id mr) s)).Nodup := by
  induction L with
  | nil => intro s h; exact h
  | cons mr L ih =>
    intro s h
    exact ih _ (nodup_storeKeys_storePut h)

theorem keyid_foldl (L : List MergeRequest) :
    ∀ s : List (Int × MergeRequest), (∀ p ∈ s, p.1 = p.2.id) →
      ∀ p ∈ L.foldl (fun acc mr => storePut acc mr.id mr) s, p.1 = p.2.id := by
  induction L with
  | nil => intro s h; exact h
  | cons mr L ih =>
    intro s h
    exact ih _ (keyid_storePut h)

/- Characterizations of the fresh-fetch loop. -/

theorem runFresh_fetched (W : MayaDT) :
    ∀ (cap : Nat) (feed : List MergeRequest) (st : SyncState),
      (runFresh W cap feed st).fetched
        = (feed.take cap).takeWhile (fun mr => decide (W < mr.updated_at)) := by
  intro cap
  induction cap with
  | zero => intro feed st; rfl
  | succ cap ih =>
    intro feed st
    cases feed with
    | nil => rfl
    | cons mr rest =>
      by_cases h : mr.updated_at ≤ W
      · have hd : decide (W < mr.updated_at) = false := by simp [not_lt.mpr h]
        simp [runFresh, h, List.take_succ_cons, List.takeWhile_cons, hd]
      · have hd : decide (W < mr.updated_at) = true := by simp [lt_of_not_le h]
        simp [runFresh, h, List.take_succ_cons, List.takeWhile_cons, hd, ih rest]

theorem runFresh_store (W : MayaDT) :
    ∀ (cap : Nat) (feed : List MergeRequest) (st : SyncState),
      (runFresh W cap feed st).state.store
        = (runFresh W cap feed st).fetched.foldl (fun s mr => storePut s mr.id mr) st.store := by
  intro cap
  induction cap with
  | zero => intro feed st; rfl
  | succ cap ih =>
    intro feed st
    cases feed with
    | nil => rfl
    | cons mr rest =>
      by_cases h : mr.updated_at ≤ W
      · simp [runFresh, h]
      · simp only [runFresh, h, if_false, List.foldl_cons]
        exact ih rest _

theorem runFresh_watermark (W : MayaDT) :
    ∀ (cap : Nat) (feed : List MergeRequest) (st : SyncState),
      (runFresh W cap feed st).state.watermark
        = (runFresh W cap feed st).fetched.foldl (fun w mr => max w mr.updated_at) st.watermark := by
  intro cap
  induction cap with
  | zero => intro feed st; rfl
  | succ cap ih =>
    intro feed st
    cases feed with
    | nil => rfl
    | cons mr rest =>
      by_cases h : mr.updated_at ≤ W
      · simp [runFresh, h]
      · simp only [runFresh, h, if_false, List.foldl_cons]
        exact ih rest _

theorem takeWhile_take {α : Type} (p : α → Bool) :
    ∀ (l : List α) (n : Nat), (l.take n).takeWhile p = (l.takeWhile p).take n := by
  intro l
  induction l with
  | nil => intro n; simp
  | cons a l ih =>
    intro n
    cases n with
    | zero => simp
    | succ n =>
      by_cases h : p a
      · simp [List.take_succ_cons, List.takeWhile_cons, h, ih n]
      · simp [List.take_succ_cons, List.takeWhile_cons, h]

/-- C1 counterexample: with watermark 0 and a descending 51-record feed
entirely above the watermark, the run fetches only 50 records — the
`islice(..., 50)` page cap — not the full 51-record prefix with
`updated_at > W`, so the fetch is not exactly the longest such prefix. -/
theorem C1_cutoff_counterexample :
    (load_merge_requests feed51 initialState).fetched
        ≠ feed51.takeWhile (fun mr => decide (initialState.watermark < mr.updated_at))
    ∧ (load_merge_requests feed51 initialState).fetched.length = 50
    ∧ (feed51.takeWhile (fun mr => decide (initialState.watermark < mr.updated_at))).length
        = 51 := by
  decide

/-- C1 amended: a single sync run fetches exactly the first
`min(50, length)` records of the longest prefix of the feed with
`updated_at > W` (the page cap truncates longer prefixes), persists
each fetched record in the record store under its id and yields it,
and stops at the first record with `updated_at ≤ W`, fetching nothing
at or below the watermark. -/
theorem C1_cutoff_capped (feed : List MergeRequest) (st : SyncState)
    (hsort : feed.Pairwise (fun a b => b.updated_at ≤ a.updated_at))
    (hids : (feed.map MergeRequest.id).Nodup) :
    (load_merge_requests feed st).fetched
      = (feed.takeWhile (fun mr => decide (st.watermark < mr.updated_at))).take 50
    ∧ ∀ mr ∈ (load_merge_requests feed st).fetched,
        st.watermark < mr.updated_at ∧
        (mr.id, mr) ∈ (load_merge_requests feed st).state.store := by
  have hfetch : (load_merge_requests feed st).fetched
      = (feed.take 50).takeWhile (fun mr => decide (st.watermark < mr.updated_at)) :=
    runFresh_fetched st.watermark 50 feed st
  constructor
  · rw [hfetch, takeWhile_take]
  · intro mr hmr
    have hlt : st.watermark < mr.updated_at := by
      have := List.mem_takeWhile_imp (hfetch ▸ hmr)
      simpa using this
    refine ⟨hlt, ?_⟩
    have hsub : (load_merge_requests feed st).fetched.Sublist feed := by
      rw [hfetch]
      exact (List.takeWhile_sublist _).trans (List.take_sublist _ _)
    have hFnd : ((load_merge_requests feed st).fetched.map MergeRequest.id).Nodup :=
      List.Nodup.sublist (List.Sublist.map _ hsub) hids
    have hstore : (load_merge_requests feed st).state.store
        = (load_merge_requests feed st).fetched.foldl (fun s m => storePut s m.id m) st.store :=
      runFresh_store st.watermark 50 feed st
    rw [hstore]
    exact (mem_foldl_storePut _ hFnd st.store (mr.id, mr)).mpr (Or.inl ⟨hmr, rfl⟩)

def feedW : List MergeRequest := [mkMR 9, mkMR 7]

/-- C1 witness: the amended cutoff theorem applied to a concrete
two-record descending feed over the initial state. -/
theorem C1_cutoff_capped_witness :
    (load_merge_requests feedW initialState).fetched
      = (feedW.takeWhile (fun mr => decide (initialState.watermark < mr.updated_at))).take 50
    ∧ ∀ mr ∈ (load_merge_requests feedW initialState).fetched,
        initialState.watermark < mr.updated_at ∧
        (mr.id, mr) ∈ (load_merge_requests feedW initialState).state.store :=
  C1_cutoff_capped feedW initialState (by decide) (by decide)

/- Termination of the fetch loop when the above-watermark prefix covers
the page cap. -/
theorem runFresh_terminated_of_cap_le (W : MayaDT) :
    ∀ (cap : Nat) (feed : List MergeRequest) (st : SyncState),
      cap ≤ (feed.takeWhile (fun mr => decide (W < mr.updated_at))).length →
      (runFresh W cap feed st).terminated = true := by
  intro cap
  induction cap with
  | zero => intro feed st _; rfl
  | succ cap ih =>
    intro feed st hlen
    cases feed with
    | nil => simp at hlen
    | cons mr rest =>
      by_cases h : mr.updated_at ≤ W
      · rw [List.takeWhile_cons] at hlen
        simp [not_lt.mpr h] at hlen
      · have hd : decide (W < mr.updated_at) = true := by simp [lt_of_not_le h]
        rw [List.takeWhile_cons, hd] at hlen
        simp only [if_true, List.length_cons, Nat.add_le_add_iff_right] at hlen
        simp only [runFresh, h, if_false]
        exact ih rest _ hlen

theorem foldl_max_le_start (l : List MergeRequest) :
    ∀ b : MayaDT, b ≤ l.foldl (fun w mr => max w mr.updated_at) b := by
  induction l with
  | nil => intro b; exact le_refl _
  | cons a l ih =>
    intro b
    exact le_trans (le_max_left _ _) (ih (max b a.updated_at))

theorem le_foldl_max (l : List MergeRequest) :
    ∀ (b : MayaDT) (x : MergeRequest), x ∈ l →
      x.updated_at ≤ l.foldl (fun w mr => max w mr.updated_at) b := by
  induction l with
  | nil => intro b x hx; simp at hx
  | cons a l ih =>
    intro b x hx
    rcases List.mem_cons.mp hx with rfl | hx'
    · exact le_trans (le_max_right b x.updated_at) (foldl_max_le_start l _)
    · exact ih _ x hx'

theorem runFresh_break (W : MayaDT) (cap : Nat) (mr : MergeRequest)
    (rest : List MergeRequest) (st : SyncState) (h : mr.updated_at ≤ W) :
    runFresh W (cap + 1) (mr :: rest) st
      = { state := st, fetched := [], terminated := true } := by
  simp [runFresh, h]

theorem load_break (feed : List MergeRequest) (st : SyncState)
    (h : runFresh st.watermark 50 feed st
      = { state := st, fetched := [], terminated := true }) :
    load_merge_requests feed st
      = { state := st, fetched := [],
          cached := (st.store.map Prod.snd).filter
            (fun mr => decide (mr.updated_at ≤ st.watermark)),
          terminated := true } := by
  simp only [load_merge_requests]
  rw [h]

/-- C8 counterexample: with watermark 0 and an unchanged descending feed
of 51 records above the watermark (ids 51 down to 1), no number of
repeated invocations ever persists the 51st record (id 1): the first
run caps at 50 and raises the watermark to the feed maximum, and every
later run stops at the first record, leaving the state fixed. -/
theorem C8_counterexample :
    ¬ ∃ n : Nat, (1 : Int) ∈ storeKeys
        (((fun s => (load_merge_requests feed51 s).state)^[n]) initialState).store := by
  rintro ⟨n, hn⟩
  have hfix : (load_merge_requests feed51 (load_merge_requests feed51 initialState).state).state
      = (load_merge_requests feed51 initialState).state := by
    decide
  have hiter : ∀ m : Nat,
      ((fun s => (load_merge_requests feed51 s).state)^[m]) initialState = initialState
      ∨ ((fun s => (load_merge_requests feed51 s).state)^[m]) initialState
          = (load_merge_requests feed51 initialState).state := by
    intro m
    induction m with
    | zero => exact Or.inl rfl
    | succ m ih =>
      rcases ih with h | h
      · right
        rw [Function.iterate_succ_apply', h]
      · right
        rw [Function.iterate_succ_apply', h]
        exact hfix
  rcases hiter n with h | h
  · rw [h] at hn
    exact absurd hn (by decide)
  · rw [h] at hn
    exact absurd hn (by decide)

/-- C8 amended: when more than 50 feed records exceed the watermark and
the descending feed does not change between runs, the first invocation
terminates via the page cap, but the watermark then covers the feed
maximum, so the second invocation fetches nothing and leaves the state
unchanged, and every further invocation is likewise a no-op: records
beyond the cap are never completed by subsequent invocations. -/
theorem C8_no_catchup (feed : List MergeRequest) (st : SyncState)
    (hsort : feed.Pairwise (fun a b => b.updated_at ≤ a.updated_at))
    (hlong : 50 < (feed.takeWhile (fun mr => decide (st.watermark < mr.updated_at))).length) :
    (load_merge_requests feed st).terminated = true
    ∧ (load_merge_requests feed (load_merge_requests feed st).state).fetched = []
    ∧ (load_merge_requests feed (load_merge_requests feed st).state).state
        = (load_merge_requests feed st).state
    ∧ ∀ n : Nat,
        (fun s => (load_merge_requests feed s).state)^[n] (load_merge_requests feed st).state
          = (load_merge_requests feed st).state := by
  cases feed with
  | nil => simp at hlong
  | cons hd tl =>
    have hp : decide (st.watermark < hd.updated_at) = true := by
      by_contra hnp
      rw [List.takeWhile_cons, eq_false_of_ne_true hnp] at hlong
      simp at hlong
    have hfetch : (load_merge_requests (hd :: tl) st).fetched
        = ((hd :: tl).take 50).takeWhile (fun mr => decide (st.watermark < mr.updated_at)) :=
      runFresh_fetched st.watermark 50 (hd :: tl) st
    have hhd : hd ∈ (load_merge_requests (hd :: tl) st).fetched := by
      rw [hfetch, takeWhile_take, List.takeWhile_cons, hp]
      simp
    have hwm : (load_merge_requests (hd :: tl) st).state.watermark
        = (load_merge_requests (hd :: tl) st).fetched.foldl
            (fun w mr => max w mr.updated_at) st.watermark :=
      runFresh_watermark st.watermark 50 (hd :: tl) st
    have hle : hd.updated_at ≤ (load_merge_requests (hd :: tl) st).state.watermark := by
      rw [hwm]
      exact le_foldl_max _ _ hd hhd
    have hbreak : runFresh (load_merge_requests (hd :: tl) st).state.watermark 50 (hd :: tl)
          (load_merge_requests (hd :: tl) st).state
        = { state := (load_merge_requests (hd :: tl) st).state, fetched := [],
            terminated := true } :=
      runFresh_break _ 49 hd tl _ hle
    have hterm : (load_merge_requests (hd :: tl) st).terminated = true :=
      runFresh_terminated_of_cap_le st.watermark 50 (hd :: tl) st (le_of_lt hlong)
    have hrun2 : load_merge_requests (hd :: tl) (load_merge_requests (hd :: tl) st).state
        = { state := (load_merge_requests (hd :: tl) st).state,
            fetched := [],
            cached := (((load_merge_requests (hd :: tl) st).state.store.map Prod.snd).filter
              (fun mr => decide (mr.updated_at ≤
                (load_merge_requests (hd :: tl) st).state.watermark))),
            terminated := true } :=
      load_break (hd :: tl) (load_merge_requests (hd :: tl) st).state hbreak
    have hfix : (load_merge_requests (hd :: tl) (load_merge_requests (hd :: tl) st).state).state
        = (load_merge_requests (hd :: tl) st).state := by
      rw [hrun2]
    refine ⟨hterm, ?_, hfix, ?_⟩
    · rw [hrun2]
    · exact Function.iterate_fixed hfix

/-- C8 witness: the amended no-catch-up theorem applied to the concrete
51-record descending feed over the initial state. -/
theorem C8_no_catchup_witness :
    (load_merge_requests feed51 initialState).terminated = true
    ∧ (load_merge_requests feed51 (load_merge_requests feed51 initialState).state).fetched = []
    ∧ (load_merge_requests feed51 (load_merge_requests feed51 initialState).state).state
        = (load_merge_requests feed51 initialState).state :=
  ⟨(C8_no_catchup feed51 initialState (by decide) (by decide)).1,
   (C8_no_catchup feed51 initialState (by decide) (by decide)).2.1,
   (C8_no_catchup feed51 initialState (by decide) (by decide)).2.2.1⟩

/- Well-formedness of a resting persistent state: store keys are unique,
each entry is keyed by its snapshot's id, and — because the loop writes
the watermark before the store — every stored snapshot is at or below
the watermark.  This holds of the empty initial state and is preserved
by every (even crash-interrupted) run. -/
def StoreWF (st : SyncState) : Prop :=
  (storeKeys st.store).Nodup
  ∧ ∀ p ∈ st.store, p.1 = p.2.id ∧ p.2.updated_at ≤ st.watermark

instance (st : SyncState) : Decidable (StoreWF st) := by
  unfold StoreWF
  infer_instance

/-- C3: the sequence a completed sync run yields — freshly fetched
snapshots followed by store-resident snapshots at or below the starting
watermark — contains exactly one snapshot per id observed: its ids are
pairwise distinct, and an id occurs iff it was in the record store
before the run or was fetched during it (so no fresh snapshot is
re-yielded from the store). -/
theorem C3_cache_complete (feed : List MergeRequest) (st : SyncState)
    (hids : (feed.map MergeRequest.id).Nodup)
    (hwf : StoreWF st)
    (hterm : (load_merge_requests feed st).terminated = true) :
    (((load_merge_requests feed st).fetched ++ (load_merge_requests feed st).cached).map
        MergeRequest.id).Nodup
    ∧ ∀ i : Int,
        (i ∈ ((load_merge_requests feed st).fetched
            ++ (load_merge_requests feed st).cached).map MergeRequest.id
          ↔ i ∈ storeKeys st.store
            ∨ i ∈ (load_merge_requests feed st).fetched.map MergeRequest.id) := by
  have hfetch : (load_merge_requests feed st).fetched
      = (feed.take 50).takeWhile (fun mr => decide (st.watermark < mr.updated_at)) :=
    runFresh_fetched st.watermark 50 feed st
  have hsub : (load_merge_requests feed st).fetched.Sublist feed := by
    rw [hfetch]
    exact (List.takeWhile_sublist _).trans (List.take_sublist _ _)
  have hFnd : ((load_merge_requests feed st).fetched.map MergeRequest.id).Nodup :=
    List.Nodup.sublist (List.Sublist.map _ hsub) hids
  have hFgt : ∀ mr ∈ (load_merge_requests feed st).fetched, st.watermark < mr.updated_at := by
    intro mr hmr
    have := List.mem_takeWhile_imp (hfetch ▸ hmr)
    simpa using this
  have hstore : (load_merge_requests feed st).state.store
      = (load_merge_requests feed st).fetched.foldl (fun s m => storePut s m.id m) st.store :=
    runFresh_store st.watermark 50 feed st
  have hmemS : ∀ p : Int × MergeRequest,
      p ∈ (load_merge_requests feed st).state.store ↔
        (p.2 ∈ (load_merge_requests feed st).fetched ∧ p.1 = p.2.id)
        ∨ (p ∈ st.store ∧ p.1 ∉ (load_merge_requests feed st).fetched.map MergeRequest.id) := by
    intro p
    rw [hstore]
    exact mem_foldl_storePut _ hFnd st.store p
  have hcached : (load_merge_requests feed st).cached
      = ((load_merge_requests feed st).state.store.map Prod.snd).filter
          (fun mr => decide (mr.updated_at ≤ st.watermark)) := rfl
  have hC : ∀ mr : MergeRequest,
      mr ∈ (load_merge_requests feed st).cached ↔
        ((mr.id, mr) ∈ st.store
          ∧ mr.id ∉ (load_merge_requests feed st).fetched.map MergeRequest.id) := by
    intro mr
    rw [hcached]
    constructor
    · intro h
      rcases List.mem_filter.mp h with ⟨hmem, hle⟩
      rcases List.mem_map.mp hmem with ⟨p, hpS, rfl⟩
      rcases (hmemS p).mp hpS with ⟨hpF, _⟩ | ⟨hpold, hpnot⟩
      · exfalso
        have h1 := hFgt p.2 hpF
        have h2 : p.2.updated_at ≤ st.watermark := by simpa using hle
        exact absurd h2 (not_le.mpr h1)
      · have hid : p.1 = p.2.id := (hwf.2 p hpold).1
        refine ⟨?_, ?_⟩
        · have hp : p = (p.2.id, p.2) := Prod.ext hid rfl
          exact hp ▸ hpold
        · rw [hid] at hpnot
          exact hpnot
    · rintro ⟨hmem, hnot⟩
      have hle : mr.updated_at ≤ st.watermark := (hwf.2 (mr.id, mr) hmem).2
      refine List.mem_filter.mpr ⟨?_, by simpa using hle⟩
      refine List.mem_map.mpr ⟨(mr.id, mr), ?_, rfl⟩
      exact (hmemS (mr.id, mr)).mpr (Or.inr ⟨hmem, hnot⟩)
  have hSkeys : (storeKeys (load_merge_requests feed st).state.store).Nodup := by
    rw [hstore]
    exact nodup_storeKeys_foldl _ st.store hwf.1
  have hSid : ∀ p ∈ (load_merge_requests feed st).state.store, p.1 = p.2.id := by
    rw [hstore]
    exact keyid_foldl _ st.store (fun p hp => (hwf.2 p hp).1)
  have hCsub : ((load_merge_requests feed st).cached.map MergeRequest.id).Sublist
      (storeKeys (load_merge_requests feed st).state.store) := by
    rw [hcached]
    have h1 := List.Sublist.map MergeRequest.id
      (List.filter_sublist (l := (load_merge_requests feed st).state.store.map Prod.snd)
        (p := fun mr => decide (mr.updated_at ≤ st.watermark)))
    have h3 : ((load_merge_requests feed st).state.store.map Prod.snd).map MergeRequest.id
        = storeKeys (load_merge_requests feed st).state.store := by
      rw [List.map_map]
      exact List.map_congr_left (fun p hp => ((hSid p hp).symm : _))
    exact h3 ▸ h1
  have hCnd : ((load_merge_requests feed st).cached.map MergeRequest.id).Nodup :=
    List.Nodup.sublist hCsub hSkeys
  have hdisj : ∀ i, i ∈ (load_merge_requests feed st).fetched.map MergeRequest.id →
      i ∉ (load_merge_requests feed st).cached.map MergeRequest.id := by
    intro i hiF hiC
    rcases List.mem_map.mp hiC with ⟨mr, hmrC, rfl⟩
    exact ((hC mr).mp hmrC).2 hiF
  constructor
  · rw [List.map_append, List.nodup_append]
    exact ⟨hFnd, hCnd, fun i hiF hiC => hdisj i hiF hiC⟩
  · intro i
    rw [List.map_append, List.mem_append]
    constructor
    · rintro (hiF | hiC)
      · exact Or.inr hiF
      · rcases List.mem_map.mp hiC with ⟨mr, hmrC, rfl⟩
        rcases (hC mr).mp hmrC with ⟨hmem, _⟩
        exact Or.inl (List.mem_map.mpr ⟨(mr.id, mr), hmem, rfl⟩)
    · rintro (hiS | hiF)
      · by_cases hF : i ∈ (load_merge_requests feed st).fetched.map MergeRequest.id
        · exact Or.inl hF
        · rcases List.mem_map.mp hiS with ⟨p, hp, rfl⟩
          have hid : p.1 = p.2.id := (hwf.2 p hp).1
          have hpmem : (p.2.id, p.2) ∈ st.store := by
            have hpe : p = (p.2.id, p.2) := Prod.ext hid rfl
            exact hpe ▸ hp
          have hnot : p.2.id ∉ (load_merge_requests feed st).fetched.map MergeRequest.id := by
            rw [hid] at hF
            exact hF
          have : p.2 ∈ (load_merge_requests feed st).cached :=
            (hC p.2).mpr ⟨hpmem, hnot⟩
          refine Or.inr ?_
          rw [hid]
          exact List.mem_map.mpr ⟨p.2, this, rfl⟩
      · exact Or.inl hiF

def stC3 : SyncState := { store := [((5 : Int), mkMR 5)], watermark := 5 }

def feedC3 : List MergeRequest := [mkMR 7, mkMR 3]

/-- C3 witness: a completed run over a store holding one older snapshot
and a feed contributing one fresh snapshot yields each id exactly once. -/
theorem C3_cache_complete_witness :
    (((load_merge_requests feedC3 stC3).fetched ++ (load_merge_requests feedC3 stC3).cached).map
        MergeRequest.id).Nodup
    ∧ ∀ i : Int,
        (i ∈ ((load_merge_requests feedC3 stC3).fetched
            ++ (load_merge_requests feedC3 stC3).cached).map MergeRequest.id
          ↔ i ∈ storeKeys stC3.store
            ∨ i ∈ (load_merge_requests feedC3 stC3).fetched.map MergeRequest.id) :=
  C3_cache_complete feedC3 stC3 (by decide) (by decide) (by decide)

/- Serialization (hud.py lines 309-317 and 279-286).

`get_converter` builds a `cattr.GenConverter` with two hooks:
`maya.MayaDT` values unstructure through `maya.MayaDT.iso8601` (the
UTC ISO-8601 text of the instant, `YYYY-MM-DDTHH:MM:SS+00:00` at whole
seconds) and structure back through `maya.MayaDT.from_iso8601`.  The
generated converter unstructures each attrs class to a JSON object
with one field per attribute in declaration order, `None` to JSON
null, lists elementwise, and structures back by field name.  The
`json.dumps`/`json.loads` pair between the converter and the store is
the standard lossless JSON text encoding and is not re-modelled; the
converter layer is modelled on a JSON value tree.

The timestamp hooks are modelled by a proleptic-Gregorian rendering
and parser over whole-second epochs, the calendar arithmetic being the
one `datetime.utcfromtimestamp` performs. -/

def isLeap (y : Nat) : Bool :=
  (y % 4 == 0 && y % 100 != 0) || y % 400 == 0

def yearLen (y : Nat) : Nat := if isLeap y then 366 else 365

theorem yearLen_pos (y : Nat) : 0 < yearLen y := by
  unfold yearLen
  split <;> omega

def monthLens (y : Nat) : List Nat :=
  [31, if isLeap y then 29 else 28, 31, 30, 31, 30, 31, 31, 30, 31, 30, 31]

theorem monthLens_sum (y : Nat) : (monthLens y).sum = yearLen y := by
  cases h : isLeap y <;> simp [monthLens, yearLen, h]

/- Walk forward one year at a time from a base year: returns the year
containing day `n` and the day-of-year remainder. -/
def yearSplit (y : Nat) (n : Nat) : Nat × Nat :=
  if h : n < yearLen y then (y, n)
  else yearSplit (y + 1) (n - yearLen y)
termination_by n
decreasing_by
  have := yearLen_pos y
  omega

def yearsSum : Nat → Nat → Nat
  | _, 0 => 0
  | y0, k + 1 => yearLen y0 + yearsSum (y0 + 1) k

theorem yearSplit_spec (n : Nat) : ∀ y0 : Nat,
    y0 ≤ (yearSplit y0 n).1
    ∧ (yearSplit y0 n).2 < yearLen (yearSplit y0 n).1
    ∧ yearsSum y0 ((yearSplit y0 n).1 - y0) + (yearSplit y0 n).2 = n := by
  induction n using Nat.strong_induction_on with
  | _ n ih =>
    intro y0
    rw [yearSplit]
    by_cases h : n < yearLen y0
    · simp [h, yearsSum]
    · have hpos := yearLen_pos y0
      have hlt : n - yearLen y0 < n := by omega
      obtain ⟨h1, h2, h3⟩ := ih (n - yearLen y0) hlt (y0 + 1)
      rw [dif_neg h]
      refine ⟨by omega, h2, ?_⟩
      have hk : (yearSplit (y0 + 1) (n - yearLen y0)).1 - y0
          = ((yearSplit (y0 + 1) (n - yearLen y0)).1 - (y0 + 1)) + 1 := by omega
      rw [hk]
      simp only [yearsSum]
      omega

/- Walk the month lengths of a year: month index and day-of-month
remainder, both zero-based. -/
def monthSplit : List Nat → Nat → Nat × Nat
  | [], n => (0, n)
  | l :: ls, n =>
    if n < l then (0, n)
    else
      let p := monthSplit ls (n - l)
      (p.1 + 1, p.2)

theorem monthSplit_spec : ∀ (ls : List Nat) (n : Nat), n < ls.sum →
    (monthSplit ls n).1 < ls.length
    ∧ (ls.take (monthSplit ls n).1).sum + (monthSplit ls n).2 = n
    ∧ (monthSplit ls n).2 < ls.getD (monthSplit ls n).1 0 := by
  intro ls
  induction ls with
  | nil => intro n h; simp at h
  | cons l ls ih =>
    intro n h
    by_cases hn : n < l
    · simp [monthSplit, hn]
    · simp only [monthSplit, hn, if_false]
      have h' : n - l < ls.sum := by
        simp only [List.sum_cons] at h
        omega
      obtain ⟨h1, h2, h3⟩ := ih (n - l) h'
      refine ⟨by simpa using Nat.succ_lt_succ h1, ?_, by simpa using h3⟩
      simp only [List.take_succ_cons, List.sum_cons]
      omega

def digitChar (d : Nat) : Char := Char.ofNat (48 + d)

def digitVal (c : Char) : Nat := c.toNat - 48

def natDigits (n : Nat) : List Char :=
  if n < 10 then [digitChar n]
  else natDigits (n / 10) ++ [digitChar (n % 10)]
termination_by n
decreasing_by
  omega

def natFromDigits (cs : List Char) : Nat :=
  cs.foldl (fun a c => 10 * a + digitVal c) 0

theorem digitChar_isDigit : ∀ d : Nat, d < 10 → (digitChar d).isDigit = true := by
  decide

theorem digitVal_digitChar : ∀ d : Nat, d < 10 → digitVal (digitChar d) = d := by
  decide

theorem natDigits_ne_nil (n : Nat) : natDigits n ≠ [] := by
  rw [natDigits]
  split <;> simp

theorem natDigits_all_digits (n : Nat) : ∀ c ∈ natDigits n, c.isDigit = true := by
  induction n using Nat.strong_induction_on with
  | _ n ih =>
    intro c hc
    rw [natDigits] at hc
    by_cases h : n < 10
    · rw [if_pos h] at hc
      rcases List.mem_singleton.mp hc with rfl
      exact digitChar_isDigit n h
    · rw [if_neg h] at hc
      rcases List.mem_append.mp hc with h1 | h1
      · exact ih (n / 10) (by omega) c h1
      · rcases List.mem_singleton.mp h1 with rfl
        exact digitChar_isDigit (n % 10) (by omega)

theorem natFromDigits_append_one (l : List Char) (c : Char) :
    natFromDigits (l ++ [c]) = 10 * natFromDigits l + digitVal c := by
  simp [natFromDigits, List.foldl_append]

theorem natFromDigits_natDigits (n : Nat) : natFromDigits (natDigits n) = n := by
  induction n using Nat.strong_induction_on with
  | _ n ih =>
    rw [natDigits]
    by_cases h : n < 10
    · rw [if_pos h]
      simp [natFromDigits, digitVal_digitChar n h]
    · rw [if_neg h]
      rw [natFromDigits_append_one, ih (n / 10) (by omega),
        digitVal_digitChar (n % 10) (by omega)]
      omega

def pad2 (n : Nat) : List Char :=
  if n < 10 then '0' :: natDigits n else natDigits n

def readDigit (c : Char) : Option Nat :=
  if c.isDigit then some (digitVal c) else none

def read2 : List Char → Option (Nat × List Char)
  | c1 :: c2 :: rest =>
    match readDigit c1, readDigit c2 with
    | some a, some b => some (10 * a + b, rest)
    | _, _ => none
  | _ => none

def readNat (cs : List Char) : Option (Nat × List Char) :=
  if cs.takeWhile Char.isDigit = [] then none
  else some (natFromDigits (cs.takeWhile Char.isDigit), cs.dropWhile Char.isDigit)

def expectChar (c : Char) : List Char → Option (List Char)
  | [] => none
  | x :: xs => if x == c then some xs else none

theorem expectChar_cons_self (c : Char) (rest : List Char) :
    expectChar c (c :: rest) = some rest := by
  simp [expectChar]

theorem pad2_eq (m : Nat) (hm : m < 100) :
    pad2 m = [digitChar (m / 10), digitChar (m % 10)] := by
  by_cases h : m < 10
  · have h0 : m / 10 = 0 := by omega
    have hm10 : m % 10 = m := by omega
    rw [pad2, if_pos h, natDigits, if_pos h, h0, hm10]
    rfl
  · rw [pad2, if_neg h, natDigits, if_neg (by omega : ¬ m < 10),
      natDigits, if_pos (by omega : m / 10 < 10)]
    rfl

theorem readDigit_digitChar : ∀ d : Nat, d < 10 → readDigit (digitChar d) = some d := by
  decide

theorem read2_pad2 (m : Nat) (hm : m < 100) (rest : List Char) :
    read2 (pad2 m ++ rest) = some (m, rest) := by
  rw [pad2_eq m hm]
  have h1 := readDigit_digitChar (m / 10) (by omega)
  have h2 := readDigit_digitChar (m % 10) (by omega)
  simp only [List.cons_append, List.nil_append, read2, h1, h2]
  have h3 : 10 * (m / 10) + m % 10 = m := by omega
  rw [h3]

theorem takeWhile_append_stop {p : Char → Bool} :
    ∀ (l : List Char) (c : Char) (rest : List Char), (∀ x ∈ l, p x = true) → p c = false →
      (l ++ c :: rest).takeWhile p = l ∧ (l ++ c :: rest).dropWhile p = c :: rest := by
  intro l
  induction l with
  | nil =>
    intro c rest _ hc
    constructor
    · simp [List.takeWhile_cons, hc]
    · simp [List.dropWhile_cons, hc]
  | cons a l ih =>
    intro c rest hall hc
    have ha : p a = true := hall a (List.mem_cons_self a l)
    obtain ⟨h1, h2⟩ := ih c rest (fun x hx => hall x (List.mem_cons.mpr (Or.inr hx))) hc
    constructor
    · simp [List.takeWhile_cons, ha, h1]
    · simp [List.dropWhile_cons, ha, h2]

theorem readNat_natDigits (n : Nat) (c : Char) (rest : List Char) (hc : c.isDigit = false) :
    readNat (natDigits n ++ c :: rest) = some (n, c :: rest) := by
  obtain ⟨h1, h2⟩ := takeWhile_append_stop (natDigits n) c rest (natDigits_all_digits n) hc
  rw [readNat, h1, h2, if_neg (natDigits_ne_nil n), natFromDigits_natDigits]

theorem getD_le_of_forall {l : List Nat} (hl : ∀ x ∈ l, x ≤ 31) :
    ∀ i : Nat, l.getD i 0 ≤ 31 := by
  induction l with
  | nil => intro i; simp [List.getD]
  | cons a l ih =>
    intro i
    cases i with
    | zero => simpa using hl a (List.mem_cons_self a l)
    | succ i =>
      rw [List.getD_cons_succ]
      exact ih (fun x hx => hl x (List.mem_cons.mpr (Or.inr hx))) i

theorem monthLens_getD_le (y : Nat) (i : Nat) : (monthLens y).getD i 0 ≤ 31 := by
  refine getD_le_of_forall ?_ i
  intro x hx
  cases h : isLeap y <;> simp [monthLens, h] at hx <;> omega

def daysUpToYear (y : Nat) : Nat := yearsSum 1970 (y - 1970)

def daysFromCivil (y m d : Nat) : Nat :=
  daysUpToYear y + ((monthLens y).take (m - 1)).sum + (d - 1)

def civilFromDays (n : Nat) : Nat × Nat × Nat :=
  let p := yearSplit 1970 n
  let q := monthSplit (monthLens p.1) p.2
  (p.1, q.1 + 1, q.2 + 1)

/- `maya.MayaDT.iso8601`: the UTC ISO-8601 rendering of the instant,
as produced by `datetime.isoformat` on an aware UTC datetime. -/
def iso8601 (t : MayaDT) : String :=
  let days := t / 86400
  let tod := t % 86400
  let c := civilFromDays days
  String.mk (natDigits c.1 ++ '-' :: (pad2 c.2.1 ++ '-' :: (pad2 c.2.2
    ++ 'T' :: (pad2 (tod / 3600) ++ ':' :: (pad2 (tod % 3600 / 60)
    ++ ':' :: (pad2 (tod % 60) ++ ['+', '0', '0', ':', '0', '0']))))))

def parseISO (cs : List Char) : Option MayaDT := do
  let (y, cs) ← readNat cs
  let cs ← expectChar '-' cs
  let (m, cs) ← read2 cs
  let cs ← expectChar '-' cs
  let (d, cs) ← read2 cs
  let cs ← expectChar 'T' cs
  let (hh, cs) ← read2 cs
  let cs ← expectChar ':' cs
  let (mi, cs) ← read2 cs
  let cs ← expectChar ':' cs
  let (s, cs) ← read2 cs
  if cs = ['+', '0', '0', ':', '0', '0'] then
    pure (daysFromCivil y m d * 86400 + (hh * 3600 + mi * 60 + s))
  else none

/- `maya.MayaDT.from_iso8601` on the canonical texts `iso8601`
produces. -/
def from_iso8601 (s : String) : Option MayaDT := parseISO s.data

theorem parseISO_components (y m d hh mi s : Nat)
    (hm : m < 100) (hd : d < 100) (hhh : hh < 100) (hmi : mi < 100) (hs : s < 100) :
    parseISO (natDigits y ++ '-' :: (pad2 m ++ '-' :: (pad2 d ++ 'T' :: (pad2 hh
        ++ ':' :: (pad2 mi ++ ':' :: (pad2 s ++ ['+', '0', '0', ':', '0', '0']))))))
      = some (daysFromCivil y m d * 86400 + (hh * 3600 + mi * 60 + s)) := by
  unfold parseISO
  rw [readNat_natDigits y '-' _ (by decide)]
  simp only [Option.bind_eq_bind, Option.some_bind]
  rw [expectChar_cons_self]
  simp only [Option.some_bind]
  rw [read2_pad2 m hm]
  simp only [Option.some_bind]
  rw [expectChar_cons_self]
  simp only [Option.some_bind]
  rw [read2_pad2 d hd]
  simp only [Option.some_bind]
  rw [expectChar_cons_self]
  simp only [Option.some_bind]
  rw [read2_pad2 hh hhh]
  simp only [Option.some_bind]
  rw [expectChar_cons_self]
  simp only [Option.some_bind]
  rw [read2_pad2 mi hmi]
  simp only [Option.some_bind]
  rw [expectChar_cons_self]
  simp only [Option.some_bind]
  rw [read2_pad2 s hs]
  simp only [Option.some_bind]
  simp

theorem from_iso8601_iso8601 (t : MayaDT) : from_iso8601 (iso8601 t) = some t := by
  obtain ⟨hy0, hr, hsum⟩ := yearSplit_spec (t / 86400) 1970
  have hrs : (yearSplit 1970 (t / 86400)).2 < (monthLens (yearSplit 1970 (t / 86400)).1).sum := by
    rw [monthLens_sum]
    exact hr
  obtain ⟨hm1, hm2, hm3⟩ := monthSplit_spec (monthLens (yearSplit 1970 (t / 86400)).1)
    (yearSplit 1970 (t / 86400)).2 hrs
  have hmlen : (monthLens (yearSplit 1970 (t / 86400)).1).length = 12 := by
    cases h : isLeap (yearSplit 1970 (t / 86400)).1 <;> simp [monthLens, h]
  rw [hmlen] at hm1
  have hgd := monthLens_getD_le (yearSplit 1970 (t / 86400)).1
    (monthSplit (monthLens (yearSplit 1970 (t / 86400)).1) (yearSplit 1970 (t / 86400)).2).1
  have hcomp := parseISO_components (yearSplit 1970 (t / 86400)).1
    ((monthSplit (monthLens (yearSplit 1970 (t / 86400)).1) (yearSplit 1970 (t / 86400)).2).1 + 1)
    ((monthSplit (monthLens (yearSplit 1970 (t / 86400)).1) (yearSplit 1970 (t / 86400)).2).2 + 1)
    (t % 86400 / 3600) (t % 86400 % 3600 / 60) (t % 86400 % 60)
    (by omega) (by omega) (by omega) (by omega) (by omega)
  have heq : from_iso8601 (iso8601 t)
      = parseISO (natDigits (yearSplit 1970 (t / 86400)).1
        ++ '-' :: (pad2 ((monthSplit (monthLens (yearSplit 1970 (t / 86400)).1)
              (yearSplit 1970 (t / 86400)).2).1 + 1)
        ++ '-' :: (pad2 ((monthSplit (monthLens (yearSplit 1970 (t / 86400)).1)
              (yearSplit 1970 (t / 86400)).2).2 + 1)
        ++ 'T' :: (pad2 (t % 86400 / 3600)
        ++ ':' :: (pad2 (t % 86400 % 3600 / 60)
        ++ ':' :: (pad2 (t % 86400 % 60) ++ ['+', '0', '0', ':', '0', '0'])))))) := rfl
  rw [heq, hcomp]
  simp only [daysFromCivil, daysUpToYear, Nat.add_sub_cancel]
  refine congrArg some ?_
  omega

/- JSON value tree and the generated converter, field for field in
attrs declaration order.  The structure functions model the cattr
generated structuring specialized to the canonical object shape the
converter itself emits (the only shape that ever reaches them through
the store). -/

inductive Json where
  | null
  | bool (b : Bool)
  | num (n : Int)
  | str (s : String)
  | arr (xs : List Json)
  | obj (fields : List (String × Json))

def unstructureMaya (t : MayaDT) : Json := .str (iso8601 t)

def structureMaya : Json → Option MayaDT
  | .str s => from_iso8601 s
  | _ => none

theorem structureMaya_unstructureMaya (t : MayaDT) :
    structureMaya (unstructureMaya t) = some t := by
  simp [structureMaya, unstructureMaya, from_iso8601_iso8601]

def unstructureOpt {α : Type} (f : α → Json) : Option α → Json
  | none => .null
  | some x => f x

def structureOpt {α : Type} (f : Json → Option α) : Json → Option (Option α)
  | .null => some none
  | j => (f j).map some

def structureBool : Json → Option Bool
  | .bool b => some b
  | _ => none

def structureStr : Json → Option String
  | .str s => some s
  | _ => none

def structureList {α : Type} (f : Json → Option α) : List Json → Option (List α)
  | [] => some []
  | j :: js =>
    match f j with
    | none => none
    | some x => (structureList f js).map (fun xs => x :: xs)

theorem structureList_map {α : Type} (f : Json → Option α) (g : α → Json) :
    ∀ l : List α, (∀ x ∈ l, f (g x) = some x) → structureList f (l.map g) = some l := by
  intro l
  induction l with
  | nil => intro _; rfl
  | cons a l ih =>
    intro h
    have ha : f (g a) = some a := h a (List.mem_cons_self a l)
    simp only [List.map_cons, structureList, ha,
      ih (fun x hx => h x (List.mem_cons.mpr (Or.inr hx))), Option.map_some']

def unstructureUser (u : User) : Json :=
  .obj [("name", .str u.name), ("username", .str u.username), ("id", .num u.id)]

def structureUser : Json → Option User
  | .obj [("name", .str name), ("username", .str username), ("id", .num id)] =>
    some { name := name, username := username, id := id }
  | _ => none

theorem structureUser_unstructureUser (u : User) :
    structureUser (unstructureUser u) = some u := rfl

def unstructurePipeline (p : Pipeline) : Json :=
  .obj [("id", .num p.id), ("status", .str p.status),
        ("updated_at", unstructureMaya p.updated_at), ("link", .str p.link)]

def structurePipeline : Json → Option Pipeline
  | .obj [("id", .num id), ("status", .str status), ("updated_at", jup), ("link", .str link)] =>
    (structureMaya jup).map
      (fun u => { id := id, status := status, updated_at := u, link := link })
  | _ => none

theorem structurePipeline_unstructurePipeline (p : Pipeline) :
    structurePipeline (unstructurePipeline p) = some p := by
  simp [structurePipeline, unstructurePipeline, structureMaya_unstructureMaya]

def unstructureNote (n : Note) : Json :=
  .obj [("system", .bool n.system), ("author", unstructureUser n.author),
        ("resolvable", .bool n.resolvable),
        ("resolved", unstructureOpt Json.bool n.resolved),
        ("resolved_by", unstructureOpt unstructureUser n.resolved_by),
        ("updated_at", unstructureMaya n.updated_at),
        ("body", .str n.body), ("id", .num n.id),
        ("type", unstructureOpt Json.str n.type)]

def structureNote : Json → Option Note
  | .obj [("system", .bool system), ("author", jauthor), ("resolvable", .bool resolvable),
          ("resolved", jresolved), ("resolved_by", jresby), ("updated_at", jup),
          ("body", .str body), ("id", .num id), ("type", jtype)] => do
    let author ← structureUser jauthor
    let resolved ← structureOpt structureBool jresolved
    let resolved_by ← structureOpt structureUser jresby
    let updated_at ← structureMaya jup
    let type ← structureOpt structureStr jtype
    pure { system := system, author := author, resolvable := resolvable,
           resolved := resolved, resolved_by := resolved_by, updated_at := updated_at,
           body := body, id := id, type := type }
  | _ => none

theorem structureOpt_bool (o : Option Bool) :
    structureOpt structureBool (unstructureOpt Json.bool o) = some o := by
  cases o <;> rfl

theorem structureOpt_str (o : Option String) :
    structureOpt structureStr (unstructureOpt Json.str o) = some o := by
  cases o <;> rfl

theorem structureOpt_user (o : Option User) :
    structureOpt structureUser (unstructureOpt unstructureUser o) = some o := by
  cases o <;> rfl

theorem structureOpt_maya (o : Option MayaDT) :
    structureOpt structureMaya (unstructureOpt unstructureMaya o) = some o := by
  cases o with
  | none => rfl
  | some t =>
    have step : structureOpt structureMaya (unstructureOpt unstructureMaya (some t))
        = (from_iso8601 (iso8601 t)).map some := rfl
    rw [step, from_iso8601_iso8601]
    rfl

theorem structureNote_unstructureNote (n : Note) :
    structureNote (unstructureNote n) = some n := by
  have step : structureNote (unstructureNote n) = (do
      let author ← structureUser (unstructureUser n.author)
      let resolved ← structureOpt structureBool (unstructureOpt Json.bool n.resolved)
      let resolved_by ← structureOpt structureUser (unstructureOpt unstructureUser n.resolved_by)
      let updated_at ← structureMaya (unstructureMaya n.updated_at)
      let type ← structureOpt structureStr (unstructureOpt Json.str n.type)
      pure { system := n.system, author := author, resolvable := n.resolvable,
             resolved := resolved, resolved_by := resolved_by, updated_at := updated_at,
             body := n.body, id := n.id, type := type } : Option Note) := rfl
  rw [step, structureUser_unstructureUser, structureOpt_bool, structureOpt_user,
    structureMaya_unstructureMaya, structureOpt_str]
  rfl

def unstructureApprovals (a : Approvals) : Json :=
  .obj [("approved", .bool a.approved),
        ("approved_by", .arr (a.approved_by.map unstructureUser)),
        ("updated_at", unstructureMaya a.updated_at), ("id", .num a.id)]

def structureApprovals : Json → Option Approvals
  | .obj [("approved", .bool approved), ("approved_by", .arr jusers),
          ("updated_at", jup), ("id", .num id)] => do
    let approved_by ← structureList structureUser jusers
    let updated_at ← structureMaya jup
    pure { approved := approved, approved_by := approved_by,
           updated_at := updated_at, id := id }
  | _ => none

theorem structureApprovals_unstructureApprovals (a : Approvals) :
    structureApprovals (unstructureApprovals a) = some a := by
  have step : structureApprovals (unstructureApprovals a) = (do
      let approved_by ← structureList structureUser (a.approved_by.map unstructureUser)
      let updated_at ← structureMaya (unstructureMaya a.updated_at)
      pure { approved := a.approved, approved_by := approved_by,
             updated_at := updated_at, id := a.id } : Option Approvals) := rfl
  rw [step,
    structureList_map structureUser unstructureUser a.approved_by
      (fun u _ => structureUser_unstructureUser u),
    structureMaya_unstructureMaya]
  rfl

def unstructureMergeRequest (mr : MergeRequest) : Json :=
  .obj [("title", .str mr.title), ("author", unstructureUser mr.author),
        ("ref", .str mr.ref), ("link", .str mr.link),
        ("notes", .arr (mr.notes.map unstructureNote)),
        ("updated_at", unstructureMaya mr.updated_at),
        ("merged_at", unstructureOpt unstructureMaya mr.merged_at),
        ("closed_at", unstructureOpt unstructureMaya mr.closed_at),
        ("approvals", unstructureApprovals mr.approvals), ("id", .num mr.id),
        ("is_draft", .bool mr.is_draft),
        ("pipelines", .arr (mr.pipelines.map unstructurePipeline)),
        ("has_conflicts", .bool mr.has_conflicts)]

def structureMergeRequest : Json → Option MergeRequest
  | .obj [("title", .str title), ("author", jauthor), ("ref", .str ref),
          ("link", .str link), ("notes", .arr jnotes), ("updated_at", jup),
          ("merged_at", jmerged), ("closed_at", jclosed), ("approvals", japprovals),
          ("id", .num id), ("is_draft", .bool is_draft), ("pipelines", .arr jpipes),
          ("has_conflicts", .bool has_conflicts)] => do
    let author ← structureUser jauthor
    let notes ← structureList structureNote jnotes
    let updated_at ← structureMaya jup
    let merged_at ← structureOpt structureMaya jmerged
    let closed_at ← structureOpt structureMaya jclosed
    let approvals ← structureApprovals japprovals
    let pipelines ← structureList structurePipeline jpipes
    pure { title := title, author := author, ref := ref, link := link, notes := notes,
           updated_at := updated_at, merged_at := merged_at, closed_at := closed_at,
           approvals := approvals, id := id, is_draft := is_draft, pipelines := pipelines,
           has_conflicts := has_conflicts }
  | _ => none

theorem structureMergeRequest_unstructureMergeRequest (mr : MergeRequest) :
    structureMergeRequest (unstructureMergeRequest mr) = some mr := by
  have step : structureMergeRequest (unstructureMergeRequest mr) = (do
      let author ← structureUser (unstructureUser mr.author)
      let notes ← structureList structureNote (mr.notes.map unstructureNote)
      let updated_at ← structureMaya (unstructureMaya mr.updated_at)
      let merged_at ← structureOpt structureMaya (unstructureOpt unstructureMaya mr.merged_at)
      let closed_at ← structureOpt structureMaya (unstructureOpt unstructureMaya mr.closed_at)
      let approvals ← structureApprovals (unstructureApprovals mr.approvals)
      let pipelines ← structureList structurePipeline (mr.pipelines.map unstructurePipeline)
      pure { title := mr.title, author := author, ref := mr.ref, link := mr.link,
             notes := notes, updated_at := updated_at, merged_at := merged_at,
             closed_at := closed_at, approvals := approvals, id := mr.id,
             is_draft := mr.is_draft, pipelines := pipelines,
             has_conflicts := mr.has_conflicts } : Option MergeRequest) := rfl
  rw [step, structureUser_unstructureUser,
    structureList_map structureNote unstructureNote mr.notes
      (fun n _ => structureNote_unstructureNote n),
    structureMaya_unstructureMaya, structureOpt_maya, structureOpt_maya,
    structureApprovals_unstructureApprovals,
    structureList_map structurePipeline unstructurePipeline mr.pipelines
      (fun p _ => structurePipeline_unstructurePipeline p)]
  rfl

/-- C9: unstructuring any `MergeRequest` with the registered converter
(each optional field present or absent, nested sequences included) and
structuring the result back yields the identical value; in particular
every timestamp serialized to its ISO-8601 text deserializes back to
the identical instant. -/
theorem C9_converter_roundtrip :
    (∀ mr : MergeRequest, structureMergeRequest (unstructureMergeRequest mr) = some mr)
    ∧ (∀ t : MayaDT, from_iso8601 (iso8601 t) = some t) :=
  ⟨structureMergeRequest_unstructureMergeRequest, from_iso8601_iso8601⟩
